import Mathlib

/-!
Verification of the EcoSnap waste-classifier core.

The development shallowly embeds the TypeScript sources:

* `src/services/wasteClassifier.ts` — the `WasteClassifier` class:
  `loadModel`, `classifyElement`, `classify`, `mapLabelToWaste`,
  `getUnknownResult`;
* `src/components/Dropzone.tsx` (the `CameraView` component) — the
  live-scan loop: `startCamera`, `stopCamera`, `processFrame`,
  `scheduleNext`;
* `src/App.tsx` — the live result sink `handleLiveResult`.

JavaScript strings are modelled as Lean `String`, JavaScript numbers
(the confidence values) as `ℚ`, and the asynchronous control flow of the
service and of the live-scan session as explicit small-step state
machines driven by event lists.
-/

/-! ## String primitives

JavaScript string operations used by the classifier:
`toLowerCase`, `includes`, and `split(',')[0]`. -/

/-- Lowercasing, mirroring `label.toLowerCase()` (ASCII letters). -/
def strToLower (s : String) : String := String.mk (s.data.map Char.toLower)

/-- Does the character list start with the pattern `pat`? -/
def startsWithList : List Char → List Char → Bool
  | [], _ => true
  | _ :: _, [] => false
  | a :: as, b :: bs => a == b && startsWithList as bs

/-- Does the pattern occur contiguously inside the character list? -/
def containsList (pat : List Char) : List Char → Bool
  | [] => startsWithList pat []
  | c :: cs => startsWithList pat (c :: cs) || containsList pat cs

/-- JavaScript `s.includes(pat)`: `pat` occurs as a contiguous substring of `s`
(the empty pattern occurs in every string, as in JavaScript). -/
def strIncludes (s pat : String) : Bool := containsList pat.data s.data

/-- JavaScript `label.split(',')[0]`: the portion of the string strictly
before its first comma (the whole string when it has no comma). -/
def firstAlias (s : String) : String :=
  String.mk (s.data.takeWhile (fun c => !(c == ',')))

/-! ## Data model (`src/types.ts` is not in the sources; shapes follow the
uses in `src/services/wasteClassifier.ts` and the spec's §3 data model). -/

/-- Waste categories of the `WasteCategory` enum. -/
inductive WasteCategory
  | ORGANIC
  | PLASTIC
  | PAPER
  | METAL
  | GLASS
  | E_WASTE
  | UNKNOWN
deriving DecidableEq, Repr

/-- Modelled from the spec: the rendering of a `WasteCategory` enum value as
the text interpolated into reasoning strings; `src/types.ts` (which fixes the
enum's string values) is not among the sources, so the §3 member names are
used. No claim depends on the particular strings chosen here. -/
def categoryText : WasteCategory → String
  | .ORGANIC => "ORGANIC"
  | .PLASTIC => "PLASTIC"
  | .PAPER => "PAPER"
  | .METAL => "METAL"
  | .GLASS => "GLASS"
  | .E_WASTE => "E_WASTE"
  | .UNKNOWN => "UNKNOWN"

/-- One entry of the `WASTE_MAPPINGS` rule table: keywords, a category and
disposal instructions. -/
structure WasteMapping where
  keywords : List String
  category : WasteCategory
  instructions : String
deriving DecidableEq, Repr

/-- The `ClassificationResult` value object. -/
structure ClassificationResult where
  category : WasteCategory
  confidence : ℚ
  label : String
  reasoning : String
  disposalInstructions : String
deriving DecidableEq, Repr

/-! ## Category mapper (`WasteClassifier.mapLabelToWaste`,
`WasteClassifier.getUnknownResult`)

The rule table `WASTE_MAPPINGS` and the fallback text
`UNKNOWN_INSTRUCTIONS` live in `src/constants.ts`, which is not among the
sources; both are therefore passed as parameters, so every theorem below
holds for any table contents. -/

/-- `WasteClassifier.getUnknownResult(label, confidence)`; the source's
default arguments are `'Unknown Object'` and `0`. -/
def getUnknownResult (UNKNOWN_INSTRUCTIONS : String) (label : String)
    (confidence : ℚ) : ClassificationResult :=
  { category := .UNKNOWN
    confidence := confidence
    label := firstAlias label
    reasoning := "The system detected '" ++ firstAlias label ++
      "' but could not match it to a specific waste stream with high confidence."
    disposalInstructions := UNKNOWN_INSTRUCTIONS }

/-- The per-rule test inside `mapLabelToWaste`'s loop:
`mapping.keywords.find(keyword => lowerLabel.includes(keyword.toLowerCase()))`
followed by the JavaScript truthiness check `if (match)`, under which the
empty string is falsy. -/
def mappingMatches (lowerLabel : String) (m : WasteMapping) : Bool :=
  match m.keywords.find? (fun k => strIncludes lowerLabel (strToLower k)) with
  | some k => !(k == "")
  | none => false

/-- `WasteClassifier.mapLabelToWaste(label, confidence)`: lowercase the label,
scan the rule table in order, return the first rule whose keyword test
succeeds, otherwise fall back to `getUnknownResult(label, confidence)`. -/
def mapLabelToWaste (WASTE_MAPPINGS : List WasteMapping)
    (UNKNOWN_INSTRUCTIONS : String) (label : String) (confidence : ℚ) :
    ClassificationResult :=
  let lowerLabel := strToLower label
  match WASTE_MAPPINGS.find? (fun m => mappingMatches lowerLabel m) with
  | some m =>
    { category := m.category
      confidence := confidence
      label := firstAlias label
      reasoning := "Identified as '" ++ firstAlias label ++
        "' which typically falls under " ++ categoryText m.category ++ "."
      disposalInstructions := m.instructions }
  | none => getUnknownResult UNKNOWN_INSTRUCTIONS label confidence

/-- The spec's notion of a rule matching a label: the rule's keyword set
contains a case-insensitive substring of the label. -/
def ruleHasSubstringMatch (label : String) (m : WasteMapping) : Prop :=
  ∃ k ∈ m.keywords, strIncludes (strToLower label) (strToLower k) = true

instance (label : String) (m : WasteMapping) :
    Decidable (ruleHasSubstringMatch label m) := by
  unfold ruleHasSubstringMatch; infer_instance

/-! ## Generic list facts used by the mapper theorems -/

/-- `List.find?` returns the element at the first index whose test holds. -/
theorem find_first_eq {α : Type} (p : α → Bool) :
    ∀ (l : List α) (j : Nat) (hj : j < l.length),
      p (l.get ⟨j, hj⟩) = true →
      (∀ i (hi : i < j), p (l.get ⟨i, Nat.lt_trans hi hj⟩) = false) →
      l.find? p = some (l.get ⟨j, hj⟩)
  | [], j, hj, _, _ => absurd hj (Nat.not_lt_zero j)
  | a :: t, 0, _, hp, _ => List.find?_cons_of_pos t hp
  | a :: t, j + 1, hj, hp, hfirst => by
    have ha : p a = false := hfirst 0 (Nat.succ_pos j)
    rw [List.find?_cons_of_neg t (by simp [ha])]
    exact find_first_eq p t j (Nat.lt_of_succ_lt_succ hj) hp
      (fun i hi => hfirst (i + 1) (Nat.succ_lt_succ hi))

/-- A successful keyword test yields a substring-matching keyword. -/
theorem mappingMatches_imp {L : String} {m : WasteMapping}
    (h : mappingMatches (strToLower L) m = true) : ruleHasSubstringMatch L m := by
  unfold mappingMatches at h
  cases hf : m.keywords.find? (fun k => strIncludes (strToLower L) (strToLower k)) with
  | none => rw [hf] at h; exact absurd h (by simp)
  | some k =>
    have hp := List.find?_some hf
    exact ⟨k, List.mem_of_find?_eq_some hf, by simpa using hp⟩

/-- For a rule all of whose keywords are nonempty, the source's keyword test
(`find` + JavaScript truthiness) holds exactly when the rule's keyword set
contains a case-insensitive substring of the label. -/
theorem mappingMatches_iff {L : String} {m : WasteMapping}
    (hk : ∀ k ∈ m.keywords, k ≠ "") :
    mappingMatches (strToLower L) m = true ↔ ruleHasSubstringMatch L m := by
  constructor
  · exact mappingMatches_imp
  · rintro ⟨k, hmem, hsub⟩
    unfold mappingMatches
    cases hf : m.keywords.find? (fun kk => strIncludes (strToLower L) (strToLower kk)) with
    | none =>
      exact absurd hsub (by simpa using List.find?_eq_none.mp hf k hmem)
    | some k' =>
      have hne : k' ≠ "" := hk k' (List.mem_of_find?_eq_some hf)
      simpa using hne

/-- Confidence is passed through unchanged on every path of the mapper. -/
theorem mapLabelToWaste_confidence (R : List WasteMapping) (ui L : String)
    (c : ℚ) : (mapLabelToWaste R ui L c).confidence = c := by
  unfold mapLabelToWaste
  cases hf : R.find? (fun m => mappingMatches (strToLower L) m) with
  | none => simp [hf, getUnknownResult]
  | some m => simp [hf]

/-- Concrete rule table used to instantiate the theorems below; the spec's
example scenarios name an ORGANIC rule with keywords "banana"/"fruit" and a
PLASTIC rule matched by "plastic bottle". -/
def sampleTable : List WasteMapping :=
  [⟨["banana", "fruit"], .ORGANIC, "Compost it."⟩,
   ⟨["plastic", "bottle"], .PLASTIC, "Recycle in the plastics bin."⟩]

/-! ## Claims C1, C2 and C9 — the category mapper -/

/-- C1: `mapLabelToWaste(L, c)` lowercases `L` and scans the rule table in
table order; it returns the category and the verbatim disposal instructions of
the first rule whose keyword set contains a case-insensitive substring of `L`
(keywords being nonempty strings), with ties between matching rules resolved
purely by earlier table position, and passes `c` through. -/
theorem mapLabelToWaste_first_match
    (WASTE_MAPPINGS : List WasteMapping) (UNKNOWN_INSTRUCTIONS : String)
    (L : String) (c : ℚ) (j : Nat) (hj : j < WASTE_MAPPINGS.length)
    (hkw : ∀ m ∈ WASTE_MAPPINGS, ∀ k ∈ m.keywords, k ≠ "")
    (hmatch : ruleHasSubstringMatch L (WASTE_MAPPINGS.get ⟨j, hj⟩))
    (hfirst : ∀ i (hi : i < j),
      ¬ ruleHasSubstringMatch L (WASTE_MAPPINGS.get ⟨i, Nat.lt_trans hi hj⟩)) :
    (mapLabelToWaste WASTE_MAPPINGS UNKNOWN_INSTRUCTIONS L c).category =
      (WASTE_MAPPINGS.get ⟨j, hj⟩).category ∧
    (mapLabelToWaste WASTE_MAPPINGS UNKNOWN_INSTRUCTIONS L c).disposalInstructions =
      (WASTE_MAPPINGS.get ⟨j, hj⟩).instructions ∧
    (mapLabelToWaste WASTE_MAPPINGS UNKNOWN_INSTRUCTIONS L c).confidence = c := by
  have hfind : WASTE_MAPPINGS.find? (fun m => mappingMatches (strToLower L) m) =
      some (WASTE_MAPPINGS.get ⟨j, hj⟩) := by
    refine find_first_eq _ WASTE_MAPPINGS j hj ?_ ?_
    · exact (mappingMatches_iff
        (hkw _ (List.get_mem WASTE_MAPPINGS j hj))).mpr hmatch
    · intro i hi
      have := hfirst i hi
      by_contra hcon
      exact this (mappingMatches_imp (by simpa using hcon))
  simp only [mapLabelToWaste]
  rw [hfind]
  exact ⟨rfl, rfl, rfl⟩

/-- Closed instance of C1 at the spec's first example scenario. -/
theorem mapLabelToWaste_first_match_witness :
    (mapLabelToWaste sampleTable "fallback" "banana" (Rat.mk' 91 100)).category =
      WasteCategory.ORGANIC ∧
    (mapLabelToWaste sampleTable "fallback" "banana" (Rat.mk' 91 100)).disposalInstructions =
      "Compost it." := by
  have h := mapLabelToWaste_first_match sampleTable "fallback" "banana"
    (Rat.mk' 91 100) 0 (by decide) (by decide) (by decide)
    (fun i hi => absurd hi (Nat.not_lt_zero i))
  exact ⟨h.1.trans (by decide), h.2.1.trans (by decide)⟩

/-- C2: when no rule's keyword set contains a case-insensitive substring of
`L`, the mapper returns category UNKNOWN with the fixed fallback instruction
text and a reasoning string stating that no confident match was found; and the
confidence `c` appears unchanged in the result in both the matched and the
no-match case. -/
theorem mapLabelToWaste_unknown_fallback
    (WASTE_MAPPINGS : List WasteMapping) (UNKNOWN_INSTRUCTIONS : String)
    (L : String) (c : ℚ)
    (hnone : ∀ m ∈ WASTE_MAPPINGS, ¬ ruleHasSubstringMatch L m) :
    (mapLabelToWaste WASTE_MAPPINGS UNKNOWN_INSTRUCTIONS L c).category =
      WasteCategory.UNKNOWN ∧
    (mapLabelToWaste WASTE_MAPPINGS UNKNOWN_INSTRUCTIONS L c).disposalInstructions =
      UNKNOWN_INSTRUCTIONS ∧
    (mapLabelToWaste WASTE_MAPPINGS UNKNOWN_INSTRUCTIONS L c).reasoning =
      "The system detected '" ++ firstAlias L ++
        "' but could not match it to a specific waste stream with high confidence." ∧
    (∀ L', (mapLabelToWaste WASTE_MAPPINGS UNKNOWN_INSTRUCTIONS L' c).confidence = c) := by
  have hfind : WASTE_MAPPINGS.find? (fun m => mappingMatches (strToLower L) m) = none := by
    refine List.find?_eq_none.mpr (fun m hm => ?_)
    intro hmm
    exact hnone m hm (mappingMatches_imp (by simpa using hmm))
  simp only [mapLabelToWaste]
  rw [hfind]
  exact ⟨rfl, rfl, rfl, fun L' => mapLabelToWaste_confidence _ _ _ _⟩

/-- Closed instance of C2 at the spec's third example scenario. -/
theorem mapLabelToWaste_unknown_fallback_witness :
    (mapLabelToWaste sampleTable "fallback" "xyz-nonsense-item" (Rat.mk' 33 100)).category =
      WasteCategory.UNKNOWN ∧
    (mapLabelToWaste sampleTable "fallback" "xyz-nonsense-item" (Rat.mk' 33 100)).confidence =
      Rat.mk' 33 100 := by
  have h := mapLabelToWaste_unknown_fallback sampleTable "fallback" "xyz-nonsense-item"
    (Rat.mk' 33 100) (by decide)
  exact ⟨h.1, h.2.2.2 "xyz-nonsense-item"⟩

/-- C9: every result produced by `mapLabelToWaste` or `getUnknownResult`
carries as its `label` only the portion of the classifier label before the
first comma (`label.split(',')[0]`), and the reasoning strings embed only that
first-alias portion. -/
theorem result_label_first_alias
    (R : List WasteMapping) (ui L : String) (c : ℚ) (lu : String) (cu : ℚ) :
    (mapLabelToWaste R ui L c).label = firstAlias L ∧
    (getUnknownResult ui lu cu).label = firstAlias lu ∧
    (getUnknownResult ui lu cu).reasoning =
      "The system detected '" ++ firstAlias lu ++
        "' but could not match it to a specific waste stream with high confidence." ∧
    (∀ m, R.find? (fun mm => mappingMatches (strToLower L) mm) = some m →
      (mapLabelToWaste R ui L c).reasoning =
        "Identified as '" ++ firstAlias L ++ "' which typically falls under " ++
          categoryText m.category ++ ".") := by
  refine ⟨?_, rfl, rfl, ?_⟩
  · unfold mapLabelToWaste
    cases hf : R.find? (fun m => mappingMatches (strToLower L) m) with
    | none => simp [hf, getUnknownResult]
    | some m => simp [hf]
  · intro m hm
    simp only [mapLabelToWaste]
    rw [hm]

/-- Closed instance of C9: a label with a comma is truncated at the comma in
both the `label` field and the reasoning text. -/
theorem result_label_first_alias_witness :
    (mapLabelToWaste sampleTable "fb" "banana, fruit" (Rat.mk' 9 10)).label = "banana" ∧
    (mapLabelToWaste sampleTable "fb" "banana, fruit" (Rat.mk' 9 10)).reasoning =
      "Identified as 'banana' which typically falls under ORGANIC." := by
  have h := result_label_first_alias sampleTable "fb" "banana, fruit" (Rat.mk' 9 10) "x" 0
  refine ⟨h.1.trans (by decide), ?_⟩
  exact (h.2.2.2 ⟨["banana", "fruit"], .ORGANIC, "Compost it."⟩ (by decide)).trans (by decide)

/-! ## Model loading (`WasteClassifier.loadModel`,
`WasteClassifier.classifyElement` model gate)

`loadModel` is asynchronous; it is embedded as a small-step state machine.
The global service state tracks the `model` and `isModelLoading` fields; each
caller of `loadModel` is a process that executes the body up to its first
suspension point (`stepEntry`) and, when it actually started a load, is
resumed with the load's outcome (`stepAwait`). -/

/-- The mutable fields of the `WasteClassifier` singleton: whether
`this.model` is non-null and the `isModelLoading` flag. -/
structure MState where
  model : Bool
  isModelLoading : Bool
deriving DecidableEq, Repr

/-- Where one caller of `loadModel` stands. -/
inductive CallerST
  | entry
  | awaiting
  | returnedEarly
  | resolvedOk
  | rejected (msg : String)
deriving DecidableEq, Repr

/-- The message of the error thrown when the load attempt fails. -/
def loadErrMsg : String :=
  "Failed to initialize local AI engine. Check your internet for the initial download."

/-- A caller runs the body of `loadModel` up to its first suspension point:
`if (this.model) return; if (this.isModelLoading) return;` both return
immediately; otherwise the caller sets `isModelLoading = true` and suspends on
the awaited load. -/
def stepEntry (s : MState) : MState × CallerST :=
  if s.model then (s, .returnedEarly)
  else if s.isModelLoading then (s, .returnedEarly)
  else ({ s with isModelLoading := true }, .awaiting)

/-- The awaited load completes: on success the model is stored; on failure an
error is thrown; the `finally` block clears `isModelLoading` either way. -/
def stepAwait (s : MState) (ok : Bool) : MState × CallerST :=
  if ok then ({ model := true, isModelLoading := false }, .resolvedOk)
  else ({ s with isModelLoading := false }, .rejected loadErrMsg)

/-- One full synchronous-outcome run of `loadModel` from state `s`: when the
entry step suspends on a load, that load resolves with `outcome`. -/
def runLoadModel (s : MState) (outcome : Bool) : MState × CallerST :=
  match stepEntry s with
  | (s1, .awaiting) => stepAwait s1 outcome
  | r => r

/-- The model gate at the top of `classifyElement`:
`if (!this.model) await this.loadModel();` then
`if (!this.model) throw new Error('Model initialization failed');`.
A thrown load error propagates out of the awaited call. Returns the service
state and the error message thrown, if any. -/
def classifyElementGate (s : MState) (outcome : Bool) : MState × Option String :=
  if s.model then (s, none)
  else
    match runLoadModel s outcome with
    | (s1, .rejected msg) => (s1, some msg)
    | (s1, _) =>
      if s1.model then (s1, none) else (s1, some "Model initialization failed")

/-- Global view of `N` concurrent callers of `loadModel` sharing the
singleton's state. -/
structure LoadSystem where
  g : MState
  callers : List CallerST
deriving DecidableEq, Repr

/-- Scheduler events: `run i` lets caller `i` execute the body up to its first
suspension point; `finish i ok` resolves the load caller `i` is awaiting. -/
inductive LEvent
  | run (i : Nat)
  | finish (i : Nat) (ok : Bool)
deriving DecidableEq, Repr

/-- Apply one scheduler event; events that do not match the addressed
caller's phase are no-ops. -/
def applyLEvent (s : LoadSystem) : LEvent → LoadSystem
  | .run i =>
    if s.callers.get? i = some .entry then
      ⟨(stepEntry s.g).1, s.callers.set i (stepEntry s.g).2⟩
    else s
  | .finish i ok =>
    if s.callers.get? i = some .awaiting then
      ⟨(stepAwait s.g ok).1, s.callers.set i (stepAwait s.g ok).2⟩
    else s

/-- `n` callers about to call `loadModel` on the freshly constructed
singleton (no model, not loading). -/
def initLoad (n : Nat) : LoadSystem := ⟨⟨false, false⟩, List.replicate n .entry⟩

/-- Replay a list of scheduler events from the initial state. -/
def replayLoad (n : Nat) (evs : List LEvent) : LoadSystem :=
  evs.foldl applyLEvent (initLoad n)

/-- Number of callers currently awaiting an underlying load attempt. -/
def awaitingCount (s : LoadSystem) : Nat :=
  s.callers.countP (fun c => c == .awaiting)

/-- Reading back the position just overwritten in a list. -/
theorem get_set_self {α : Type} :
    ∀ (l : List α) (i : Nat) (a : α), i < l.length → (l.set i a).get? i = some a
  | [], i, _, h => absurd h (by simp)
  | _ :: _, 0, _, _ => rfl
  | _ :: t, i + 1, a, h => get_set_self t i a (by simpa using h)

/-- Overwriting position `i` exchanges the old element's contribution to
`countP` for the new element's. -/
theorem countP_set_add {α : Type} (p : α → Bool) :
    ∀ (l : List α) (i : Nat) (a b : α), l.get? i = some a →
      (l.set i b).countP p + (if p a then 1 else 0) =
        l.countP p + (if p b then 1 else 0)
  | [], _, _, _, h => by simp at h
  | c :: t, 0, a, b, h => by
    have hca : c = a := by simpa using h
    subst hca
    simp only [List.set, List.countP_cons]
    omega
  | c :: t, i + 1, a, b, h => by
    have ht := countP_set_add p t i a b (by simpa using h)
    simp only [List.set, List.countP_cons]
    omega

/-- The single-flight invariant of the load system: at most one load attempt
is in flight, and only while `isModelLoading` is set. -/
def LoadInv (s : LoadSystem) : Prop :=
  awaitingCount s ≤ 1 ∧ (1 ≤ awaitingCount s → s.g.isModelLoading = true)

/-- Characterization: `loadModel` returns at its first guard when the model
is already present. -/
theorem stepEntry_model {s : MState} (h : s.model = true) :
    stepEntry s = (s, .returnedEarly) := by
  simp [stepEntry, h]

/-- Characterization: `loadModel` returns at its second guard, immediately and
without touching the state, when a load is already in flight. -/
theorem stepEntry_loading {s : MState} (h1 : s.model = false)
    (h2 : s.isModelLoading = true) : stepEntry s = (s, .returnedEarly) := by
  simp [stepEntry, h1, h2]

/-- Characterization: with no model and no load in flight, `loadModel` sets
`isModelLoading` and suspends on a fresh load attempt. -/
theorem stepEntry_fresh {s : MState} (h1 : s.model = false)
    (h2 : s.isModelLoading = false) :
    stepEntry s = ({ s with isModelLoading := true }, .awaiting) := by
  simp [stepEntry, h1, h2]

/-- Characterization: a successful load stores the model and clears the
loading flag. -/
theorem stepAwait_true (s : MState) :
    stepAwait s true = (⟨true, false⟩, .resolvedOk) := rfl

/-- Characterization: a failed load throws `loadErrMsg`; the `finally` block
clears the loading flag and the model stays absent. -/
theorem stepAwait_false (s : MState) :
    stepAwait s false = ({ s with isModelLoading := false }, .rejected loadErrMsg) := rfl

/-- `countP_set_add` specialized to the awaiting-caller count. -/
theorem countP_aw_set {l : List CallerST} {i : Nat} {a : CallerST} (b : CallerST)
    (h : l.get? i = some a) :
    (l.set i b).countP (fun c => c == CallerST.awaiting) +
        (if a = CallerST.awaiting then 1 else 0) =
      l.countP (fun c => c == CallerST.awaiting) +
        (if b = CallerST.awaiting then 1 else 0) := by
  have key := countP_set_add (fun c => c == CallerST.awaiting) l i a b h
  simpa using key

/-- Every scheduler event preserves the single-flight invariant. -/
theorem loadInv_apply {s : LoadSystem} (e : LEvent) (h : LoadInv s) :
    LoadInv (applyLEvent s e) := by
  obtain ⟨h1, h2⟩ := h
  simp only [awaitingCount] at h1 h2
  cases e with
  | run i =>
    by_cases hc : s.callers.get? i = some CallerST.entry
    · simp only [applyLEvent, if_pos hc]
      by_cases hm : s.g.model = true
      · rw [stepEntry_model hm]
        show LoadInv ⟨s.g, s.callers.set i CallerST.returnedEarly⟩
        have key := countP_aw_set CallerST.returnedEarly hc
        simp at key
        refine ⟨?_, fun hge => h2 ?_⟩ <;>
          simp only [awaitingCount] at * <;> omega
      · have hm2 : s.g.model = false := by
          cases hmm : s.g.model with
          | true => exact absurd hmm hm
          | false => rfl
        by_cases hl : s.g.isModelLoading = true
        · rw [stepEntry_loading hm2 hl]
          show LoadInv ⟨s.g, s.callers.set i CallerST.returnedEarly⟩
          have key := countP_aw_set CallerST.returnedEarly hc
          simp at key
          refine ⟨?_, fun hge => h2 ?_⟩ <;>
            simp only [awaitingCount] at * <;> omega
        · have hl2 : s.g.isModelLoading = false := by
            cases hll : s.g.isModelLoading with
            | true => exact absurd hll hl
            | false => rfl
          rw [stepEntry_fresh hm2 hl2]
          show LoadInv ⟨{ s.g with isModelLoading := true },
            s.callers.set i CallerST.awaiting⟩
          have hz : s.callers.countP (fun c => c == CallerST.awaiting) = 0 := by
            by_contra hnz
            rw [h2 (by omega)] at hl2
            exact Bool.true_eq_false.mp hl2
          have key := countP_aw_set CallerST.awaiting hc
          simp at key
          refine ⟨?_, fun _ => rfl⟩
          simp only [awaitingCount]
          omega
    · simp only [applyLEvent, if_neg hc]
      exact ⟨by simpa [awaitingCount] using h1, by simpa [awaitingCount] using h2⟩
  | finish i ok =>
    by_cases hc : s.callers.get? i = some CallerST.awaiting
    · simp only [applyLEvent, if_pos hc]
      cases ok with
      | true =>
        rw [stepAwait_true]
        show LoadInv ⟨⟨true, false⟩, s.callers.set i CallerST.resolvedOk⟩
        have key := countP_aw_set CallerST.resolvedOk hc
        simp at key
        refine ⟨?_, fun hge => ?_⟩
        · simp only [awaitingCount]; omega
        · exfalso
          simp only [awaitingCount] at hge
          omega
      | false =>
        rw [stepAwait_false]
        show LoadInv ⟨{ s.g with isModelLoading := false },
          s.callers.set i (CallerST.rejected loadErrMsg)⟩
        have key := countP_aw_set (CallerST.rejected loadErrMsg) hc
        simp at key
        refine ⟨?_, fun hge => ?_⟩
        · simp only [awaitingCount]; omega
        · exfalso
          simp only [awaitingCount] at hge
          omega
    · simp only [applyLEvent, if_neg hc]
      exact ⟨by simpa [awaitingCount] using h1, by simpa [awaitingCount] using h2⟩

/-- The invariant holds along any event list from an invariant state. -/
theorem loadInv_foldl {s : LoadSystem} (h : LoadInv s) :
    ∀ evs : List LEvent, LoadInv (evs.foldl applyLEvent s)
  | [] => h
  | e :: evs => loadInv_foldl (loadInv_apply e h) evs

/-- The invariant holds in the initial state of `n` fresh callers. -/
theorem loadInv_init (n : Nat) : LoadInv (initLoad n) := by
  have hz : awaitingCount (initLoad n) = 0 := by
    simp only [awaitingCount, initLoad]
    refine List.countP_eq_zero.mpr (fun c hcmem => ?_)
    have := List.eq_of_mem_replicate hcmem
    subst this
    decide
  exact ⟨by omega, fun hge => absurd hz (by omega)⟩

/-- Running an `entry` caller while another caller's load is in flight leaves
the service state untouched and completes the caller immediately. -/
theorem run_entry_while_loading {s : LoadSystem} {i : Nat}
    (hm : s.g.model = false) (hl : s.g.isModelLoading = true)
    (hc : s.callers.get? i = some .entry) :
    (applyLEvent s (.run i)).callers.get? i = some CallerST.returnedEarly ∧
    (applyLEvent s (.run i)).g = s.g := by
  have hlt : i < s.callers.length := by
    rcases List.get?_eq_some.mp hc with ⟨hlen, _⟩
    exact hlen
  simp only [applyLEvent]
  rw [hc]
  simp only [stepEntry, hm, hl, if_false, if_true]
  exact ⟨get_set_self s.callers i _ hlt, rfl⟩

/-! ## Claims C3, C7 and C10 — `loadModel` concurrency and retry -/

/-- C3 (amended): at most one underlying load attempt is ever in flight — a
caller of `loadModel` that arrives while a load is in flight starts no second
load — but such a caller returns immediately, without waiting for the
in-flight attempt and without observing its outcome. -/
theorem loadModel_single_attempt_no_wait (n : Nat) (evs : List LEvent) (i : Nat) :
    awaitingCount (replayLoad n evs) ≤ 1 ∧
    ((replayLoad n evs).g.model = false →
      (replayLoad n evs).g.isModelLoading = true →
      (replayLoad n evs).callers.get? i = some CallerST.entry →
      (applyLEvent (replayLoad n evs) (.run i)).callers.get? i =
          some CallerST.returnedEarly ∧
      (applyLEvent (replayLoad n evs) (.run i)).g = (replayLoad n evs).g) := by
  refine ⟨(loadInv_foldl (loadInv_init n) evs).1, fun hm hl hc => ?_⟩
  exact run_entry_while_loading hm hl hc

/-- Closed instance of the amended C3: with caller 0's load in flight, caller
1 returns immediately and at most one load attempt exists. -/
theorem loadModel_single_attempt_no_wait_witness :
    awaitingCount (replayLoad 2 [.run 0]) ≤ 1 ∧
    (applyLEvent (replayLoad 2 [.run 0]) (.run 1)).callers.get? 1 =
      some CallerST.returnedEarly := by
  have h := loadModel_single_attempt_no_wait 2 [.run 0] 1
  exact ⟨h.1, (h.2 (by decide) (by decide) (by decide)).1⟩

/-- C3 counterexample: caller 0 starts the load; caller 1, calling while that
load is in flight, completes immediately (`returnedEarly`) before the load
finishes, and when the load then fails caller 0 rejects while caller 1 never
observed that outcome — refuting that every concurrent caller waits on the
in-flight attempt and resolves or rejects with its single outcome. -/
theorem loadModel_coalescing_counterexample :
    (replayLoad 2 [.run 0, .run 1]).callers.get? 0 = some CallerST.awaiting ∧
    (replayLoad 2 [.run 0, .run 1]).callers.get? 1 = some CallerST.returnedEarly ∧
    (replayLoad 2 [.run 0, .run 1]).g.isModelLoading = true ∧
    (replayLoad 2 [.run 0, .run 1]).g.model = false ∧
    (applyLEvent (replayLoad 2 [.run 0, .run 1]) (.finish 0 false)).callers.get? 0 =
      some (CallerST.rejected loadErrMsg) ∧
    (applyLEvent (replayLoad 2 [.run 0, .run 1]) (.finish 0 false)).callers.get? 1 =
      some CallerST.returnedEarly ∧
    CallerST.returnedEarly ≠ CallerST.rejected loadErrMsg := by
  refine ⟨by decide, by decide, by decide, by decide, by decide, by decide, by decide⟩

/-- C7: a failed load attempt throws a `ModelLoadError` carrying a (nonempty)
user-facing message, and the failure is not cached: the state returns to
not-loading with no model held, a subsequent `loadModel` call begins a fresh
load attempt, and that attempt can succeed. -/
theorem loadModel_failure_not_cached (s : MState) (h : s.model = false) :
    stepAwait s false = (⟨false, false⟩, .rejected loadErrMsg) ∧
    loadErrMsg ≠ "" ∧
    stepEntry ⟨false, false⟩ = (⟨false, true⟩, .awaiting) ∧
    stepAwait ⟨false, true⟩ true = (⟨true, false⟩, .resolvedOk) := by
  obtain ⟨m, l⟩ := s
  simp only at h
  subst h
  cases l <;> exact ⟨by decide, by decide, by decide, by decide⟩

/-- Closed instance of C7 at the state reached by an in-flight failing load. -/
theorem loadModel_failure_not_cached_witness :
    stepAwait ⟨false, true⟩ false = (⟨false, false⟩, .rejected loadErrMsg) ∧
    stepEntry ⟨false, false⟩ = (⟨false, true⟩, .awaiting) := by
  have h := loadModel_failure_not_cached ⟨false, true⟩ (by decide)
  exact ⟨h.1, h.2.2.1⟩

/-- C10: calling `classifyElement` while the model is not yet loaded but a
load is already in flight makes the inner `loadModel` call return immediately,
after which `classifyElement` throws `'Model initialization failed'` — even
though the outstanding load attempt may subsequently succeed. -/
theorem classifyElement_throws_while_loading (s : MState) (outcome : Bool)
    (h1 : s.model = false) (h2 : s.isModelLoading = true) :
    classifyElementGate s outcome = (s, some "Model initialization failed") ∧
    stepAwait s true = (⟨true, false⟩, .resolvedOk) := by
  obtain ⟨m, l⟩ := s
  simp only at h1 h2
  subst h1
  subst h2
  cases outcome <;> exact ⟨by decide, by decide⟩

/-- Closed instance of C10. -/
theorem classifyElement_throws_while_loading_witness :
    classifyElementGate ⟨false, true⟩ true =
      (⟨false, true⟩, some "Model initialization failed") :=
  (classifyElement_throws_while_loading ⟨false, true⟩ true (by decide) (by decide)).1

/-! ## Live-scan session (`CameraView` in `src/components/Dropzone.tsx`,
sink `App.handleLiveResult` in `src/App.tsx`)

One live session is embedded as a state machine. `processFrame` runs
synchronously up to the `await` of `classifyElement`; a started inference is
counted in `inFlight` and resolved by a separate `complete` event, which
performs the rest of `processFrame` (forward through the sink gate, clear the
busy flag, reschedule). -/

/-- State of one `CameraView` live session plus its result sink. -/
structure SessState where
  isActive : Bool
  isStreaming : Bool
  tracksLive : Bool
  busy : Bool
  timer : Bool
  inFlight : Nat
  sink : List ℚ
deriving DecidableEq, Repr

/-- `App.handleLiveResult`: store the result only if its confidence exceeds
`0.2` (the rational `1/5`, written in normalized form). -/
def handleLiveResult (c : ℚ) (sink : List ℚ) : List ℚ :=
  if Rat.mk' 1 5 < c then c :: sink else sink

/-- `CameraView.scheduleNext`: arm the 800 ms timer only while the session is
active and streaming. -/
def scheduleNext (s : SessState) : SessState :=
  if s.isActive && s.isStreaming then { s with timer := true } else s

/-- The synchronous prefix of `CameraView.processFrame`: skip work (and
reschedule) when inactive, not streaming, or busy; with a ready frame, set the
busy flag and start an inference; with no ready frame, just reschedule. -/
def processFrame (frameReady : Bool) (s : SessState) : SessState :=
  if !s.isActive || !s.isStreaming || s.busy then scheduleNext s
  else if frameReady then { s with busy := true, inFlight := s.inFlight + 1 }
  else scheduleNext s

/-- `CameraView.stopCamera`: stop all capture-device tracks, clear the
streaming flag, cancel any pending scheduled tick, clear the busy flag. -/
def stopCamera (s : SessState) : SessState :=
  { s with tracksLive := false, isStreaming := false, timer := false, busy := false }

/-- Session events: a timer tick fires (with or without a ready video frame),
an in-flight inference completes (`some c`: success with confidence `c`;
`none`: inference error, swallowed silently), or the session is deactivated. -/
inductive SEvent
  | tick (frameReady : Bool)
  | complete (res : Option ℚ)
  | deactivate
deriving DecidableEq, Repr

/-- Apply one session event. Completion performs the tail of `processFrame`:
`onResult(result)` through the `handleLiveResult` gate on success, nothing on
error, then the `finally` clearing of the busy flag and `scheduleNext()`. -/
def applySessEvent (s : SessState) : SEvent → SessState
  | .tick fr => if s.timer then processFrame fr { s with timer := false } else s
  | .complete res =>
    if s.inFlight = 0 then s
    else
      scheduleNext
        { s with
          inFlight := s.inFlight - 1
          busy := false
          sink := match res with
            | some c => handleLiveResult c s.sink
            | none => s.sink }
  | .deactivate => stopCamera { s with isActive := false }

/-- A session that has just become active and streaming, with the effect hook
invoking `processFrame` for the first time. -/
def activateSess (frameReady : Bool) : SessState :=
  processFrame frameReady
    { isActive := true, isStreaming := true, tracksLive := true,
      busy := false, timer := false, inFlight := 0, sink := [] }

/-- Replay a list of session events. -/
def replaySess (s : SessState) (evs : List SEvent) : SessState :=
  evs.foldl applySessEvent s

/-- Events occurring within one active session (activation and deactivation
excluded). -/
def inSession : SEvent → Prop := fun e => e ≠ SEvent.deactivate

/-- `scheduleNext` never touches the sink. -/
theorem scheduleNext_sink (s : SessState) : (scheduleNext s).sink = s.sink := by
  unfold scheduleNext
  split <;> rfl

/-- The session's single-flight invariant: an inference is outstanding exactly
while the busy flag is set, hence never more than one. -/
def SessInv (s : SessState) : Prop := s.inFlight = if s.busy then 1 else 0

instance (s : SessState) : Decidable (SessInv s) := by
  unfold SessInv; infer_instance

instance (e : SEvent) : Decidable (inSession e) := by
  unfold inSession; infer_instance

/-- Ticks and completions preserve the single-flight invariant. -/
theorem sessInv_apply {s : SessState} (e : SEvent) (he : inSession e)
    (h : SessInv s) : SessInv (applySessEvent s e) := by
  cases e with
  | tick fr =>
    obtain ⟨a, st, tl, b, tm, n, sk⟩ := s
    simp only [SessInv] at h ⊢
    cases tm <;> cases b <;> cases a <;> cases st <;> cases fr <;>
      simp_all [applySessEvent, processFrame, scheduleNext]
  | complete res =>
    obtain ⟨a, st, tl, b, tm, n, sk⟩ := s
    simp only [SessInv] at h ⊢
    by_cases hn : n = 0
    · subst hn
      simp only [applySessEvent, if_true]
      exact h
    · cases b with
      | false => exact absurd (by simpa using h) hn
      | true =>
        have h1 : n = 1 := by simpa using h
        subst h1
        simp only [applySessEvent]
        rw [if_neg (by omega)]
        unfold scheduleNext
        split <;> rfl
  | deactivate => exact absurd rfl he

/-- The invariant holds along any in-session event list. -/
theorem sessInv_foldl {s : SessState} (h : SessInv s) :
    ∀ evs : List SEvent, (∀ e ∈ evs, inSession e) →
      SessInv (evs.foldl applySessEvent s)
  | [], _ => h
  | e :: evs, hall =>
    sessInv_foldl (sessInv_apply e (hall e (List.mem_cons_self e evs)) h) evs
      (fun e2 he2 => hall e2 (List.mem_cons_of_mem e he2))

/-! ## Claims C4, C5 and C6 — the live-scan scheduler -/

/-- C4: within one active live session (no deactivation among the events), at
most one inference is outstanding at any time: a tick while the busy flag is
set skips work, and the next tick is armed only after the current inference
completes, so inferences never overlap. -/
theorem live_single_flight (fr : Bool) (evs : List SEvent)
    (h : ∀ e ∈ evs, inSession e) :
    (replaySess (activateSess fr) evs).inFlight ≤ 1 := by
  have hinv : SessInv (replaySess (activateSess fr) evs) := by
    refine sessInv_foldl ?_ evs h
    cases fr <;> decide
  rw [SessInv] at hinv
  rw [hinv]
  cases (replaySess (activateSess fr) evs).busy <;> simp

/-- Closed instance of C4 on a session with a completed and a restarted
inference. -/
theorem live_single_flight_witness :
    (replaySess (activateSess true)
      [SEvent.complete (some (Rat.mk' 1 2)), SEvent.tick true]).inFlight ≤ 1 :=
  live_single_flight true [SEvent.complete (some (Rat.mk' 1 2)), SEvent.tick true]
    (by decide)

/-- C5 (amended): deactivating an active session cancels any pending scheduled
tick, stops all capture-device tracks and clears the busy flag, but an
inference that was in flight at deactivation is not discarded: it remains
outstanding, and when it completes, its result is still forwarded to the
caller's result sink (subject only to the confidence gate). -/
theorem deactivate_cleanup_late_result (s : SessState) (c : ℚ)
    (_ha : s.isActive = true) (hf : s.inFlight = 1) (hc : Rat.mk' 1 5 < c) :
    (applySessEvent s .deactivate).timer = false ∧
    (applySessEvent s .deactivate).tracksLive = false ∧
    (applySessEvent s .deactivate).isStreaming = false ∧
    (applySessEvent s .deactivate).isActive = false ∧
    (applySessEvent s .deactivate).busy = false ∧
    (applySessEvent s .deactivate).inFlight = 1 ∧
    (applySessEvent (applySessEvent s .deactivate) (.complete (some c))).sink =
      c :: s.sink := by
  refine ⟨rfl, rfl, rfl, rfl, rfl, hf, ?_⟩
  show (applySessEvent (stopCamera { s with isActive := false })
    (.complete (some c))).sink = c :: s.sink
  simp only [applySessEvent, stopCamera, hf]
  rw [if_neg (by omega)]
  rw [scheduleNext_sink]
  simp [handleLiveResult, hc]

/-- Closed instance of the amended C5. -/
theorem deactivate_cleanup_late_result_witness :
    (applySessEvent (activateSess true) .deactivate).timer = false ∧
    (applySessEvent (applySessEvent (activateSess true) .deactivate)
        (.complete (some (Rat.mk' 9 10)))).sink =
      Rat.mk' 9 10 :: (activateSess true).sink := by
  have h := deactivate_cleanup_late_result (activateSess true) (Rat.mk' 9 10)
    (by decide) (by decide) (by decide)
  exact ⟨h.1, h.2.2.2.2.2.2⟩

/-- C5 counterexample: a session is activated with an inference in flight and
then deactivated; when the in-flight inference later completes, its result
(confidence 9/10) is delivered to the result sink — refuting that after
deactivation no result is ever delivered to the sink. -/
theorem deactivate_discard_counterexample :
    (replaySess (activateSess true) [SEvent.deactivate]).isActive = false ∧
    (replaySess (activateSess true) [SEvent.deactivate]).inFlight = 1 ∧
    (replaySess (activateSess true)
        [SEvent.deactivate, SEvent.complete (some (Rat.mk' 9 10))]).sink =
      [Rat.mk' 9 10] ∧
    ([Rat.mk' 9 10] : List ℚ) ≠ [] := by
  exact ⟨by decide, by decide, by decide, by decide⟩

/-- C6: a live result that completes with confidence `c` is forwarded to the
caller's result sink exactly when `c` strictly exceeds `0.2`: the sink gains
the result when `c > 0.2` and stays unchanged when `c ≤ 0.2`. -/
theorem live_confidence_gate (s : SessState) (c : ℚ) (h : s.inFlight ≠ 0) :
    ((applySessEvent s (.complete (some c))).sink = c :: s.sink ↔
      Rat.mk' 1 5 < c) ∧
    ((applySessEvent s (.complete (some c))).sink = s.sink ↔
      ¬ Rat.mk' 1 5 < c) := by
  have hs : (applySessEvent s (.complete (some c))).sink =
      handleLiveResult c s.sink := by
    simp only [applySessEvent]
    rw [if_neg h, scheduleNext_sink]
  rw [hs]
  unfold handleLiveResult
  by_cases hlt : Rat.mk' 1 5 < c
  · rw [if_pos hlt]
    refine ⟨⟨fun _ => hlt, fun _ => rfl⟩, ⟨fun hcons => ?_, fun hn => absurd hlt hn⟩⟩
    exact absurd hcons (List.cons_ne_self c s.sink)
  · rw [if_neg hlt]
    refine ⟨⟨fun hcons => ?_, fun hl => absurd hl hlt⟩, ⟨fun _ => hlt, fun _ => rfl⟩⟩
    exact absurd hcons.symm (List.cons_ne_self c s.sink)

/-- Closed instance of C6: a confidence of 9/10 passes the gate, a confidence
of 1/10 is discarded. -/
theorem live_confidence_gate_witness :
    (applySessEvent (activateSess true) (.complete (some (Rat.mk' 9 10)))).sink =
      Rat.mk' 9 10 :: (activateSess true).sink ∧
    (applySessEvent (activateSess true) (.complete (some (Rat.mk' 1 10)))).sink =
      (activateSess true).sink := by
  constructor
  · exact (live_confidence_gate (activateSess true) (Rat.mk' 9 10)
      (by decide)).1.mpr (by decide)
  · exact (live_confidence_gate (activateSess true) (Rat.mk' 1 10)
      (by decide)).2.mpr (by decide)

/-! ## Claim C8 — `WasteClassifier.classify(file)` resource release

`classify` creates an object URL for the file, decodes it into an image, and
settles its promise from `img.onload` / `img.onerror`. Its observable effect
order is embedded as a list of effects, indexed by whether the decode
succeeded and by the inference's outcome. -/

/-- Outcome of the inner `classifyElement(img)` call. -/
inductive InferOutcome
  | ok (r : ClassificationResult)
  | err (msg : String)
deriving DecidableEq, Repr

/-- The externally observable effects of one `classify(file)` call. -/
inductive CEffect
  | createURL
  | revokeURL
  | resolveResult (r : ClassificationResult)
  | rejectError (msg : String)
deriving DecidableEq, Repr

/-- Effect trace of `classify(file)`: `URL.createObjectURL` always runs first;
on `img.onload`, the inference runs and the URL is revoked before the promise
resolves (success) or rejects (inference error); on `img.onerror`, the URL is
revoked and the promise rejects with the decode error. -/
def classifyEffects (decodeOk : Bool) (inf : InferOutcome) : List CEffect :=
  if decodeOk then
    match inf with
    | .ok r => [.createURL, .revokeURL, .resolveResult r]
    | .err m => [.createURL, .revokeURL, .rejectError m]
  else
    [.createURL, .revokeURL, .rejectError "Failed to process image file"]

/-- C8: on every exit path of `classify(file)` — successful classification,
inference failure, and decode failure alike — the temporary object URL is
revoked, and the revocation precedes the terminal settlement of the promise;
a decode failure rejects with the decode error after the URL is revoked. -/
theorem classify_releases_url (d : Bool) (inf : InferOutcome) :
    (∃ t, classifyEffects d inf = [CEffect.createURL, CEffect.revokeURL, t]) ∧
    CEffect.revokeURL ∈ classifyEffects d inf ∧
    (∀ r, d = true → inf = InferOutcome.ok r → classifyEffects d inf =
      [CEffect.createURL, CEffect.revokeURL, CEffect.resolveResult r]) ∧
    (∀ m, d = true → inf = InferOutcome.err m → classifyEffects d inf =
      [CEffect.createURL, CEffect.revokeURL, CEffect.rejectError m]) ∧
    (d = false → classifyEffects d inf =
      [CEffect.createURL, CEffect.revokeURL,
        CEffect.rejectError "Failed to process image file"]) := by
  cases d <;> cases inf <;>
    exact ⟨⟨_, rfl⟩, by simp [classifyEffects],
      fun r hd hi => by simp_all [classifyEffects],
      fun m hd hi => by simp_all [classifyEffects],
      fun hd => by simp_all [classifyEffects]⟩

/-- Closed instance of C8 on the decode-failure path. -/
theorem classify_releases_url_witness :
    classifyEffects false (.err "Neural analysis failed") =
      [CEffect.createURL, CEffect.revokeURL,
        CEffect.rejectError "Failed to process image file"] :=
  (classify_releases_url false (.err "Neural analysis failed")).2.2.2.2 rfl
